import Mathlib

/-!
Verification of the type-checking orchestration layer of gopls
(golang.org/x/tools/gopls/internal/lsp/cache, file check.go, and pkg.go).

The Go code is shallowly embedded: Go maps are modelled as association
lists (the list order models the map's arbitrary iteration order where
the code iterates, and the code's explicit sorting is modelled by
`List.insertionSort`); `fmt.Fprintf` writes to the SHA-256 hasher are
modelled by returning the concatenated byte stream as a `String` (the
256-bit key is the SHA-256 digest of that stream, so equal streams give
equal keys and distinct keys require distinct streams); Go errors are
modelled with `Except String`; external collaborators (parser,
go/types, filecache, diagnostics rendering) are parameters of the
embedded functions.
-/

set_option maxHeartbeats 1000000

/-- Association-list lookup by string key, mirroring a Go map access
(`m[k]`): the value of the first entry with the given key, if any. -/
def lookupStr {α : Type} : List (String × α) → String → Option α
  | [], _ => none
  | p :: t, k => if p.1 = k then some p.2 else lookupStr t k

/-- Rendering of a Go `bool` under the `%t` verb. -/
def boolStr (b : Bool) : String :=
  if b then "true" else "false"

/-- Go's `sort.Strings`: sort a string slice in ascending order. -/
def sortStrings (l : List String) : List String :=
  l.insertionSort (fun a b => a ≤ b)

/-- The data of a dependency `*packageHandle` that `computePackageKey`
reads: `dep.m.PkgPath` and `dep.key` (the key rendered as its `%s`
form). -/
structure DepInfo where
  pkgPath : String
  key : String
deriving DecidableEq

/-- The `typeCheckInputs` struct of check.go: the pure inputs of one
package build.  File handles are represented by the string that
`fh.FileIdentity()` prints (URI plus content hash), which is all that
`computePackageKey` reads from them.  `deps` is the Go map
`map[PackageID]*packageHandle`; `depsByImpPath` is
`map[ImportPath]PackageID`; both are association lists whose order
models map-iteration order. -/
structure TypeCheckInputs where
  id : String
  pkgPath : String
  name : String
  goFiles : List String
  compiledGoFiles : List String
  sizesWordSize : Int
  sizesMaxAlign : Int
  deps : List (String × DepInfo)
  depsByImpPath : List (String × String)
  goVersion : String
  relatedInformation : Bool
  linkTarget : String
  moduleMode : Bool
deriving DecidableEq

/-- The byte stream that `computePackageKey` (check.go lines 933-988)
feeds to the SHA-256 hasher, transcribed `Fprintf` by `Fprintf`.  The
resulting 256-bit key is the SHA-256 digest of this stream, so the key
is a pure function of this string.  Note that the `import` entries are
written by `fmt.Fprintf(hasher, "import %s %s", ...)` with no trailing
newline, exactly as in the source. -/
def computePackageKey (inputs : TypeCheckInputs) : String :=
  "package: " ++ inputs.id ++ " " ++ inputs.name ++ " " ++ inputs.pkgPath ++ "\n"
  ++ "go " ++ inputs.goVersion ++ "\n"
  ++ String.join ((sortStrings (inputs.depsByImpPath.map Prod.fst)).map
      (fun impPath => "import " ++ impPath ++ " " ++ ((lookupStr inputs.depsByImpPath impPath).getD "")))
  ++ String.join ((sortStrings (inputs.deps.map Prod.fst)).map
      (fun depID =>
        let dep := (lookupStr inputs.deps depID).getD ⟨"", ""⟩
        "dep: " ++ dep.pkgPath ++ " key:" ++ dep.key ++ "\n"))
  ++ "compiledGoFiles: " ++ toString inputs.compiledGoFiles.length ++ "\n"
  ++ String.join (inputs.compiledGoFiles.map (fun f => f ++ "\n"))
  ++ "goFiles: " ++ toString inputs.goFiles.length ++ "\n"
  ++ String.join (inputs.goFiles.map (fun f => f ++ "\n"))
  ++ "sizes: " ++ toString inputs.sizesWordSize ++ " " ++ toString inputs.sizesMaxAlign ++ "\n"
  ++ "relatedInformation: " ++ boolStr inputs.relatedInformation ++ "\n"
  ++ "linkTarget: " ++ inputs.linkTarget ++ "\n"
  ++ "moduleMode: " ++ boolStr inputs.moduleMode ++ "\n"

/-- C1: the pre-hash encoding of `computePackageKey` is NOT unambiguous.
Because the `import` entries are written without a terminating
delimiter, the two distinct inputs below - one with the single import
entry `("a" -> "b c")`, the other with the single entry
`("a b" -> "c")` - feed the identical byte stream to the hasher.
(Package IDs really do contain spaces, e.g. test variants such as
`"fmt [math.test]"`.)  This refutes the claim that distinct
`TypeCheckInputs` always serialize to distinct byte sequences. -/
theorem computePackageKey_import_collision :
    computePackageKey
      { id := "", pkgPath := "", name := "", goFiles := [], compiledGoFiles := [],
        sizesWordSize := 0, sizesMaxAlign := 0, deps := [],
        depsByImpPath := [("a", "b c")], goVersion := "",
        relatedInformation := false, linkTarget := "", moduleMode := false }
    = computePackageKey
      { id := "", pkgPath := "", name := "", goFiles := [], compiledGoFiles := [],
        sizesWordSize := 0, sizesMaxAlign := 0, deps := [],
        depsByImpPath := [("a b", "c")], goVersion := "",
        relatedInformation := false, linkTarget := "", moduleMode := false }
    ∧ ({ id := "", pkgPath := "", name := "", goFiles := [], compiledGoFiles := [],
             sizesWordSize := 0, sizesMaxAlign := 0, deps := [],
             depsByImpPath := [("a", "b c")], goVersion := "",
             relatedInformation := false, linkTarget := "", moduleMode := false } : TypeCheckInputs)
      ≠ { id := "", pkgPath := "", name := "", goFiles := [], compiledGoFiles := [],
          sizesWordSize := 0, sizesMaxAlign := 0, deps := [],
          depsByImpPath := [("a b", "c")], goVersion := "",
          relatedInformation := false, linkTarget := "", moduleMode := false } := by
  constructor
  · decide
  · decide

/-- Sorting is canonical: permuted string lists sort to the same list. -/
theorem sortStrings_perm {l1 l2 : List String} (h : l1.Perm l2) :
    sortStrings l1 = sortStrings l2 := by
  unfold sortStrings
  exact List.eq_of_perm_of_sorted
    ((List.perm_insertionSort _ l1).trans (h.trans (List.perm_insertionSort _ l2).symm))
    (List.sorted_insertionSort _ l1)
    (List.sorted_insertionSort _ l2)

/-- In an association list with pairwise-distinct keys (as a Go map
always has), `lookupStr` finds exactly the entries of the list. -/
theorem lookupStr_eq_some_iff {α : Type} {l : List (String × α)}
    (hnd : (l.map Prod.fst).Nodup) {k : String} {v : α} :
    lookupStr l k = some v ↔ (k, v) ∈ l := by
  induction l with
  | nil => simp [lookupStr]
  | cons p t ih =>
    obtain ⟨a, b⟩ := p
    simp only [List.map_cons, List.nodup_cons] at hnd
    simp only [lookupStr, List.mem_cons]
    by_cases hk : a = k
    · subst hk
      rw [if_pos rfl]
      constructor
      · intro hv
        injection hv with hv
        exact Or.inl (by rw [hv])
      · rintro (heq | hmem2)
        · exact congrArg some ((Prod.ext_iff.mp heq).2).symm
        · exact absurd (by simpa using List.mem_map_of_mem Prod.fst hmem2) hnd.1
    · rw [if_neg hk, ih hnd.2]
      constructor
      · exact fun hm => Or.inr hm
      · rintro (heq | hm)
        · exact absurd (Prod.ext_iff.mp heq).1.symm hk
        · exact hm

/-- Lookup in an association list with distinct keys is invariant under
permutation of the entries. -/
theorem lookupStr_perm {α : Type} {l1 l2 : List (String × α)} (h : l1.Perm l2)
    (hnd : (l1.map Prod.fst).Nodup) (k : String) :
    lookupStr l1 k = lookupStr l2 k := by
  have hnd2 : (l2.map Prod.fst).Nodup := (h.map Prod.fst).nodup hnd
  cases e1 : lookupStr l1 k with
  | some v =>
    have hm : (k, v) ∈ l1 := (lookupStr_eq_some_iff hnd).mp e1
    exact ((lookupStr_eq_some_iff hnd2).mpr (h.mem_iff.mp hm)).symm
  | none =>
    cases e2 : lookupStr l2 k with
    | none => rfl
    | some v =>
      have hm : (k, v) ∈ l1 := h.mem_iff.mpr ((lookupStr_eq_some_iff hnd2).mp e2)
      rw [(lookupStr_eq_some_iff hnd).mpr hm] at e1
      exact absurd e1 (by simp)

/-- C2: the computed key is independent of the iteration order of the
dependency map and of the import map.  Supplying the entries of
`deps` and `depsByImpPath` in any permuted order yields the same byte
stream (hence the same 256-bit key), because `computePackageKey` sorts
the import paths and the dependency IDs before hashing. -/
theorem computePackageKey_perm (i : TypeCheckInputs)
    (deps2 : List (String × DepInfo)) (imps2 : List (String × String))
    (hd : i.deps.Perm deps2) (hi : i.depsByImpPath.Perm imps2)
    (hnd : (i.deps.map Prod.fst).Nodup) (hni : (i.depsByImpPath.map Prod.fst).Nodup) :
    computePackageKey { i with deps := deps2, depsByImpPath := imps2 } = computePackageKey i := by
  have hsd : sortStrings (deps2.map Prod.fst) = sortStrings (i.deps.map Prod.fst) :=
    sortStrings_perm ((hd.map Prod.fst).symm)
  have hsi : sortStrings (imps2.map Prod.fst) = sortStrings (i.depsByImpPath.map Prod.fst) :=
    sortStrings_perm ((hi.map Prod.fst).symm)
  have hfi : (fun impPath => "import " ++ impPath ++ " " ++ ((lookupStr imps2 impPath).getD ""))
      = (fun impPath => "import " ++ impPath ++ " "
          ++ ((lookupStr i.depsByImpPath impPath).getD "")) := by
    funext k
    rw [lookupStr_perm hi hni k]
  have hfd : (fun depID =>
        let dep := (lookupStr deps2 depID).getD ⟨"", ""⟩
        "dep: " ++ dep.pkgPath ++ " key:" ++ dep.key ++ "\n")
      = (fun depID =>
        let dep := (lookupStr i.deps depID).getD ⟨"", ""⟩
        "dep: " ++ dep.pkgPath ++ " key:" ++ dep.key ++ "\n") := by
    funext k
    rw [lookupStr_perm hd hnd k]
  simp only [computePackageKey, hsd, hsi, hfi, hfd]

/-- Witness for C2 at a concrete input: supplying the dependency map
and the import map in reversed order gives the same key. -/
theorem computePackageKey_perm_witness :
    computePackageKey
      { id := "p", pkgPath := "example.com/p", name := "p", goFiles := ["gf1"],
        compiledGoFiles := ["cf1"], sizesWordSize := 8, sizesMaxAlign := 8,
        deps := [("depB", ⟨"pathB", "keyB"⟩), ("depA", ⟨"pathA", "keyA"⟩)],
        depsByImpPath := [("impB", "depB"), ("impA", "depA")], goVersion := "1.18",
        relatedInformation := true, linkTarget := "https://pkg.go.dev", moduleMode := true }
    = computePackageKey
      { id := "p", pkgPath := "example.com/p", name := "p", goFiles := ["gf1"],
        compiledGoFiles := ["cf1"], sizesWordSize := 8, sizesMaxAlign := 8,
        deps := [("depA", ⟨"pathA", "keyA"⟩), ("depB", ⟨"pathB", "keyB"⟩)],
        depsByImpPath := [("impA", "depA"), ("impB", "depB")], goVersion := "1.18",
        relatedInformation := true, linkTarget := "https://pkg.go.dev", moduleMode := true } :=
  computePackageKey_perm
    { id := "p", pkgPath := "example.com/p", name := "p", goFiles := ["gf1"],
      compiledGoFiles := ["cf1"], sizesWordSize := 8, sizesMaxAlign := 8,
      deps := [("depA", ⟨"pathA", "keyA"⟩), ("depB", ⟨"pathB", "keyB"⟩)],
      depsByImpPath := [("impA", "depA"), ("impB", "depB")], goVersion := "1.18",
      relatedInformation := true, linkTarget := "https://pkg.go.dev", moduleMode := true }
    [("depB", ⟨"pathB", "keyB"⟩), ("depA", ⟨"pathA", "keyA"⟩)]
    [("impB", "depB"), ("impA", "depA")]
    (by decide) (by decide) (by decide) (by decide)

/-- The data of a dependency handle that the type-checking inputs keep:
the dependency's package path and its key (see `typeCheckInputs.deps`
in check.go). -/
structure DepHandle where
  pkgPath : String
  key : String
deriving DecidableEq

/-- Whether an `Except` value is an error. -/
def isErr {ε α : Type} : Except ε α → Bool
  | .error _ => true
  | .ok _ => false

/-- The dependency-collection loop of `snapshot.typeCheckInputs`
(check.go lines 851-874).  The loop iterates over `m.DepsByPkgPath`
calling `buildPackageHandle` for each dependency; the iteration is
modelled by the list `builds` of pairs (dependency ID, result of
building its handle), and the state of `ctx.Err()` at the time of the
check by `ctxErr`.  A failed dependency is skipped (the `continue`)
unless the context is cancelled, in which case `ctx.Err()` is
returned. -/
def typeCheckInputsDeps (ctxErr : Option String) :
    List (String × Except String DepHandle) → Except String (List (String × DepHandle))
  | [] => .ok []
  | (id, r) :: rest =>
    match r with
    | .ok h =>
      match typeCheckInputsDeps ctxErr rest with
      | .ok tail => .ok ((id, h) :: tail)
      | .error e => .error e
    | .error _ =>
      match ctxErr with
      | some c => .error c
      | none => typeCheckInputsDeps ctxErr rest

/-- The predecessor-await step of `handleSyntaxPackage` (check.go lines
538-545): an error from `awaitPredecessors` does not fail the package
unless `ctx.Err()` is non-nil, in which case `ctx.Err()` is returned.
The returned value is the fatal error produced by this step, if any. -/
def awaitPredecessorsStep (ctxErr : Option String) (awaitErr : Option String) : Option String :=
  match awaitErr with
  | none => none
  | some _ =>
    match ctxErr with
    | some c => some c
    | none => none

/-- Go's `%q` verb on a plain string (no escaping needed for the paths
used here). -/
def quoteStr (s : String) : String :=
  "\"" ++ s ++ "\""

/-- The `missingPkgError` function of check.go (lines 1336-1347). -/
def missingPkgError (pkgPath : String) (moduleMode : Bool) : String :=
  if moduleMode then
    "no required module provides package " ++ quoteStr pkgPath
  else
    "cannot find package " ++ quoteStr pkgPath ++ " in GOROOT or GOPATH"

/-- The importer closure installed by `typesConfig` (check.go lines
1160-1181): resolve the written import path through
`inputs.depsByImpPath`; a dependency whose handle is absent from
`inputs.deps` (because its build failed and it was skipped) surfaces as
`missingPkgError`; otherwise the validity check runs and the import is
resolved through `getImportPackage` (modelled by `getImport`). -/
def importerResolve {α : Type} (depsByImpPath : List (String × String))
    (deps : List (String × DepHandle)) (pkgPath : String) (moduleMode : Bool)
    (isValidImport : String → String → Bool)
    (getImport : String → Except String α) (path : String) : Except String α :=
  match lookupStr depsByImpPath path with
  | none => .error ("missing metadata for import of " ++ quoteStr path)
  | some id =>
    match lookupStr deps id with
    | none => .error (missingPkgError path moduleMode)
    | some depPH =>
      if !(isValidImport pkgPath depPH.pkgPath) then
        .error ("invalid use of internal package " ++ quoteStr path)
      else
        getImport id

/-- C3: a failure to build or await a direct dependency is not fatal to
the package being checked.
With a live context (`ctxErr = none`), `typeCheckInputsDeps` succeeds
and simply omits every failed dependency (conjunct 1), and the
await-predecessors step of `handleSyntaxPackage` swallows the error
(conjunct 3); the omitted dependency then surfaces as an import error
through the checker's importer callback (conjunct 5).
With a cancelled context, a failed dependency makes
`typeCheckInputsDeps` return the cancellation error (conjunct 2), and
an await failure makes `handleSyntaxPackage` return the cancellation
error (conjunct 4). -/
theorem typeCheckInputs_dep_failure
    (builds : List (String × Except String DepHandle)) (c : String)
    (hfail : ∃ p ∈ builds, isErr p.2 = true)
    (awaitErr : Option String) (e0 : String)
    (imps : List (String × String)) (deps : List (String × DepHandle))
    (pkgPath path id : String) (moduleMode : Bool)
    (isValidImport : String → String → Bool) (getImport : String → Except String Nat)
    (himp : lookupStr imps path = some id) (hdep : lookupStr deps id = none) :
    typeCheckInputsDeps none builds
      = .ok (builds.filterMap (fun p =>
          match p.2 with
          | .ok h => some (p.1, h)
          | .error _ => none))
    ∧ typeCheckInputsDeps (some c) builds = .error c
    ∧ awaitPredecessorsStep none awaitErr = none
    ∧ awaitPredecessorsStep (some c) (some e0) = some c
    ∧ importerResolve imps deps pkgPath moduleMode isValidImport getImport path
        = .error (missingPkgError path moduleMode) := by
  refine ⟨?_, ?_, ?_, rfl, ?_⟩
  · clear hfail
    induction builds with
    | nil => rfl
    | cons p rest ih =>
      obtain ⟨id2, r⟩ := p
      cases r with
      | ok h => simp [typeCheckInputsDeps, ih]
      | error e => simpa [typeCheckInputsDeps] using ih
  · induction builds with
    | nil => simp at hfail
    | cons p rest ih =>
      obtain ⟨id2, r⟩ := p
      cases r with
      | ok h =>
        have hrest : ∃ q ∈ rest, isErr q.2 = true := by
          rcases hfail with ⟨q, hq, hqe⟩
          rcases List.mem_cons.mp hq with rfl | hq2
          · simp [isErr] at hqe
          · exact ⟨q, hq2, hqe⟩
        simp [typeCheckInputsDeps, ih hrest]
      | error e => rfl
  · cases awaitErr <;> rfl
  · simp [importerResolve, himp, hdep]

/-- Witness for C3 at concrete inputs: two dependencies, the second of
which fails to build. -/
theorem typeCheckInputs_dep_failure_witness :
    (∃ p ∈ [("depA", (.ok ⟨"pathA", "keyA"⟩ : Except String DepHandle)),
            ("depB", .error "metadata not found")], isErr p.2 = true)
    ∧ (lookupStr [("imp", "depB")] "imp" = some "depB")
    ∧ typeCheckInputsDeps none
        [("depA", .ok ⟨"pathA", "keyA"⟩), ("depB", .error "metadata not found")]
        = .ok [("depA", ⟨"pathA", "keyA"⟩)]
    ∧ typeCheckInputsDeps (some "context canceled")
        [("depA", .ok ⟨"pathA", "keyA"⟩), ("depB", .error "metadata not found")]
        = .error "context canceled"
    ∧ awaitPredecessorsStep none (some "await failed") = none
    ∧ awaitPredecessorsStep (some "context canceled") (some "await failed")
        = some "context canceled"
    ∧ importerResolve [("imp", "depB")] [("depA", ⟨"pathA", "keyA"⟩)] "example.com/p" true
        (fun _ _ => true) (fun _ => (.ok 0 : Except String Nat)) "imp"
        = .error (missingPkgError "imp" true) := by
  have h := typeCheckInputs_dep_failure
    [("depA", (.ok ⟨"pathA", "keyA"⟩ : Except String DepHandle)),
     ("depB", .error "metadata not found")]
    "context canceled" (by decide) (some "await failed") "await failed"
    [("imp", "depB")] [("depA", ⟨"pathA", "keyA"⟩)] "example.com/p" "imp" "depB" true
    (fun _ _ => true) (fun _ => (.ok 0 : Except String Nat)) (by decide) (by decide)
  exact ⟨by decide, by decide, h.1, h.2.1, h.2.2.1, h.2.2.2.1, h.2.2.2.2⟩

/-- A `types.Error` as far as check.go reads and writes it: the message
`Msg`, the position (`Fset`/`Pos` condensed to one abstract position
token), and the `Soft` flag. -/
structure TError where
  msg : String
  pos : Nat
  soft : Bool
deriving DecidableEq

/-- The `extendedError` struct of check.go (lines 1349-1352). -/
structure ExtendedError where
  primary : TError
  secondaries : List TError
deriving DecidableEq

/-- The continuation test of the inner loop of `expandErrors` (line
1378): an error continues the preceding primary iff its message is
non-empty and starts with a tab. -/
def isCont (e : TError) : Bool :=
  !e.msg.isEmpty && e.msg.front == '\t'

/-- The tab-stripping `spl.Msg = spl.Msg[1:]` of line 1381. -/
def stripTab (e : TError) : TError :=
  { e with msg := e.msg.drop 1 }

/-- The block emitted by one iteration of the outer loop of
`expandErrors` (lines 1373-1411): the original primary with its
(tab-stripped) secondaries attached, followed by one clone per
secondary, relocated to that secondary, with a tweaked message and
with the secondary at the clone's own index marked " (this error)". -/
def emitBlock (ri : Bool) (primary : TError) (secondaries : List TError) : List ExtendedError :=
  { primary := primary, secondaries := secondaries } ::
  secondaries.enum.map (fun q =>
    { primary := { q.2 with
        msg := if ri then primary.msg ++ " (see details)"
               else primary.msg ++ " (this error: " ++ q.2.msg ++ ")",
        soft := primary.soft },
      secondaries := primary :: secondaries.enum.map (fun q2 =>
        if q.1 = q2.1 then { q2.2 with msg := q2.2.msg ++ " (this error)" } else q2.2) })

/-- The loop of `expandErrors` (check.go lines 1370-1414), with the
inner continuation-gathering loop turned into a structurally recursive
accumulator (`conts` holds the tab-stripped continuations gathered so
far, most recent first). -/
def expandErrorsAux (ri : Bool) (primary : TError) (conts : List TError) :
    List TError → List ExtendedError
  | [] => emitBlock ri primary conts.reverse
  | e :: rest =>
    if isCont e then expandErrorsAux ri primary (stripTab e :: conts) rest
    else emitBlock ri primary conts.reverse ++ expandErrorsAux ri e [] rest

/-- The `expandErrors` function of check.go: the first error starts a
block; each subsequent error either continues the current block (tab
message) or starts a new one. -/
def expandErrors (errs : List TError) (ri : Bool) : List ExtendedError :=
  match errs with
  | [] => []
  | p :: rest => expandErrorsAux ri p [] rest

/-- Splitting lemma for the accumulator loop: gathering a run of
continuations followed by a non-continuation boundary emits exactly one
block and continues with the remaining errors. -/
theorem expandErrorsAux_split (ri : Bool) (p : TError) (acc conts rest : List TError)
    (hc : ∀ c ∈ conts, isCont c = true)
    (hr : ∀ r0, rest.head? = some r0 → isCont r0 = false) :
    expandErrorsAux ri p acc (conts ++ rest) =
      emitBlock ri p (acc.reverse ++ conts.map stripTab) ++ expandErrors rest ri := by
  induction conts generalizing acc with
  | nil =>
    cases rest with
    | nil => simp [expandErrorsAux, expandErrors]
    | cons r rs =>
      have hr0 : isCont r = false := hr r rfl
      simp [expandErrorsAux, hr0, expandErrors]
  | cons c cs ih =>
    have hc0 : isCont c = true := hc c (List.mem_cons_self _ _)
    have hcs : ∀ x ∈ cs, isCont x = true := fun x hx => hc x (List.mem_cons_of_mem _ hx)
    have hstep : expandErrorsAux ri p acc ((c :: cs) ++ rest)
        = expandErrorsAux ri p (stripTab c :: acc) (cs ++ rest) := by
      simp [expandErrorsAux, hc0]
    rw [hstep, ih (stripTab c :: acc) hcs]
    simp [List.reverse_cons, List.append_assoc]

/-- C4: for a primary error followed by N continuation errors (messages
starting with a tab) and then a non-continuation boundary,
`expandErrors` emits the primary unchanged with the tab-stripped
continuations as its secondaries, followed by N additional errors, one
located at each continuation, whose message is the primary's message
suffixed with " (see details)" when related-information is supported
and with " (this error: msg)" otherwise, and whose secondaries are the
primary followed by all continuations with the one at the current index
marked " (this error)"; the remaining errors are then expanded in the
same way. -/
theorem expandErrors_spec (p0 : TError) (conts rest : List TError) (ri : Bool)
    (hc : ∀ c ∈ conts, isCont c = true)
    (hr : ∀ r0, rest.head? = some r0 → isCont r0 = false) :
    expandErrors (p0 :: (conts ++ rest)) ri =
      ({ primary := p0, secondaries := conts.map stripTab } ::
        (conts.map stripTab).enum.map (fun q =>
          { primary := { q.2 with
              msg := if ri then p0.msg ++ " (see details)"
                     else p0.msg ++ " (this error: " ++ q.2.msg ++ ")",
              soft := p0.soft },
            secondaries := p0 :: (conts.map stripTab).enum.map (fun q2 =>
              if q.1 = q2.1 then { q2.2 with msg := q2.2.msg ++ " (this error)" }
              else q2.2) }))
      ++ expandErrors rest ri := by
  show expandErrorsAux ri p0 [] (conts ++ rest) = _
  rw [expandErrorsAux_split ri p0 [] conts rest hc hr]
  simp [emitBlock]

/-- Witness for C4: the spec's own example - a "redeclared" primary with
one tab continuation, related information supported. -/
theorem expandErrors_spec_witness :
    (∀ c ∈ [({ msg := "\tother declaration of f", pos := 2, soft := false } : TError)],
        isCont c = true)
    ∧ expandErrors
        [{ msg := "f redeclared in this block", pos := 1, soft := false },
         { msg := "\tother declaration of f", pos := 2, soft := false }] true =
      [{ primary := { msg := "f redeclared in this block", pos := 1, soft := false },
         secondaries := [{ msg := "other declaration of f", pos := 2, soft := false }] },
       { primary := { msg := "f redeclared in this block (see details)", pos := 2, soft := false },
         secondaries := [{ msg := "f redeclared in this block", pos := 1, soft := false },
                         { msg := "other declaration of f (this error)", pos := 2,
                           soft := false }] }] := by
  constructor
  · decide
  · have h := expandErrors_spec
      { msg := "f redeclared in this block", pos := 1, soft := false }
      [{ msg := "\tother declaration of f", pos := 2, soft := false }] [] true
      (by decide) (by intro r0 h0; simp at h0)
    exact h.trans (by decide)

/-- A diagnostic as far as the suppression logic of `typeCheckImpl`
reads it: its file URI and its message. -/
structure Diag where
  uri : String
  msg : String
deriving DecidableEq

/-- The fields of `syntaxPackage` that the post-processing in
`typeCheckImpl` (check.go lines 1014-1056) reads and writes.  A parse
error (`scanner.ErrorList`) is modelled as an opaque token (`Nat`)
that the external `parseErrorDiagnostics` maps to diagnostics. -/
structure SPkg where
  parseErrors : List Nat
  hasFixedFiles : Bool
  typeErrors : List TError
  diagnostics : List Diag
deriving DecidableEq

/-- The parse-error loop of `typeCheckImpl` (lines 1016-1027): for each
parse error, compute its diagnostics via the external
`parseErrorDiagnostics` (a failed computation is logged and skipped),
and append them.  The URIs of the appended diagnostics form the
"unparseable" set. -/
def collectParseDiags (ped : Nat → Option (List Diag)) : List Nat → List Diag
  | [] => []
  | e :: rest =>
    (match ped e with
     | none => []
     | some ds => ds) ++ collectParseDiags ped rest

/-- The type-error loop of `typeCheckImpl` (lines 1033-1054): for each
expanded error, compute its diagnostics via the external
`typeErrorDiagnostics` (a failed computation is logged and skipped);
record the primary in `typeErrors` and append every diagnostic whose
URI is not in the unparseable set.  Returns (recorded primaries,
appended diagnostics). -/
def typeDiagsPhase (ted : ExtendedError → Option (List Diag)) (unparseable : List String) :
    List ExtendedError → List TError × List Diag
  | [] => ([], [])
  | e :: rest =>
    match ted e with
    | none => typeDiagsPhase ted unparseable rest
    | some ds =>
      let tail := typeDiagsPhase ted unparseable rest
      (e.primary :: tail.1,
       ds.filter (fun d => !(unparseable.contains d.uri)) ++ tail.2)

/-- The diagnostics post-processing of `typeCheckImpl` (check.go lines
1014-1056): append parse-error diagnostics and record their URIs as
unparseable; if `hasFixedFiles` return immediately; otherwise expand
the type errors and run the type-error loop. -/
def typeCheckImplModel (ped : Nat → Option (List Diag))
    (ted : ExtendedError → Option (List Diag)) (ri : Bool) (pkg : SPkg) : SPkg :=
  let pdiags := collectParseDiags ped pkg.parseErrors
  let unparseable := pdiags.map Diag.uri
  let pkg2 := { pkg with diagnostics := pkg.diagnostics ++ pdiags }
  if pkg2.hasFixedFiles then pkg2
  else
    let r := typeDiagsPhase ted unparseable (expandErrors pkg2.typeErrors ri)
    { pkg2 with typeErrors := r.1, diagnostics := pkg2.diagnostics ++ r.2 }

/-- No diagnostic produced by the type-error loop lies in an
unparseable file. -/
theorem typeDiagsPhase_no_unparseable (ted : ExtendedError → Option (List Diag))
    (unparseable : List String) (expanded : List ExtendedError) :
    ∀ d ∈ (typeDiagsPhase ted unparseable expanded).2,
      unparseable.contains d.uri = false := by
  induction expanded with
  | nil => simp [typeDiagsPhase]
  | cons e rest ih =>
    intro d hd
    simp only [typeDiagsPhase] at hd
    cases hted : ted e with
    | none =>
      rw [hted] at hd
      exact ih d hd
    | some ds =>
      rw [hted] at hd
      rcases List.mem_append.mp hd with hleft | hright
      · have := List.of_mem_filter hleft
        simpa using this
      · exact ih d hright


/-- Every diagnostic of a successfully rendered expanded error that
lies in a cleanly parsed file is emitted by the type-error loop. -/
theorem typeDiagsPhase_emits (ted : ExtendedError → Option (List Diag))
    (unparseable : List String) (expanded : List ExtendedError) :
    ∀ e ∈ expanded, ∀ ds, ted e = some ds → ∀ d ∈ ds,
      unparseable.contains d.uri = false →
        d ∈ (typeDiagsPhase ted unparseable expanded).2 := by
  induction expanded with
  | nil => simp
  | cons e0 rest ih =>
    intro e he ds hds d hd hclean
    rcases List.mem_cons.mp he with rfl | he2
    · simp only [typeDiagsPhase, hds]
      refine List.mem_append.mpr (Or.inl ?_)
      exact List.mem_filter.mpr ⟨hd, by simpa using hclean⟩
    · have htail := ih e he2 ds hds d hd hclean
      simp only [typeDiagsPhase]
      cases hted0 : ted e0 with
      | none => exact htail
      | some ds0 => exact List.mem_append.mpr (Or.inr htail)

/-- C5: type-error suppression in `typeCheckImpl`.
If the parser set `hasFixedFiles`, the resulting diagnostics are the
parse-error diagnostics only - no type-error diagnostic is added
(conjunct 1).  Otherwise the result appends exactly the type-error
loop's output (conjunct 2), in which every diagnostic lying in a file
that produced a parse error is suppressed (conjunct 3) while every
rendered type-error diagnostic in a cleanly parsed file of the package
is emitted (conjunct 4). -/
theorem typeCheckImpl_suppression (ped : Nat → Option (List Diag))
    (ted : ExtendedError → Option (List Diag)) (ri : Bool) (pkg : SPkg) :
    (pkg.hasFixedFiles = true →
      (typeCheckImplModel ped ted ri pkg).diagnostics
        = pkg.diagnostics ++ collectParseDiags ped pkg.parseErrors)
    ∧ (pkg.hasFixedFiles = false →
      (typeCheckImplModel ped ted ri pkg).diagnostics
        = pkg.diagnostics ++ collectParseDiags ped pkg.parseErrors
          ++ (typeDiagsPhase ted ((collectParseDiags ped pkg.parseErrors).map Diag.uri)
              (expandErrors pkg.typeErrors ri)).2
      ∧ (∀ d ∈ (typeDiagsPhase ted ((collectParseDiags ped pkg.parseErrors).map Diag.uri)
              (expandErrors pkg.typeErrors ri)).2,
          ((collectParseDiags ped pkg.parseErrors).map Diag.uri).contains d.uri = false)
      ∧ (∀ e ∈ expandErrors pkg.typeErrors ri, ∀ ds, ted e = some ds → ∀ d ∈ ds,
          ((collectParseDiags ped pkg.parseErrors).map Diag.uri).contains d.uri = false →
            d ∈ (typeDiagsPhase ted ((collectParseDiags ped pkg.parseErrors).map Diag.uri)
                  (expandErrors pkg.typeErrors ri)).2)) := by
  constructor
  · intro hfix
    simp [typeCheckImplModel, hfix]
  · intro hfix
    refine ⟨?_, typeDiagsPhase_no_unparseable _ _ _, typeDiagsPhase_emits _ _ _⟩
    simp [typeCheckImplModel, hfix, List.append_assoc]

/-- Witness for C5: one parse error in file a.go; one type error whose
expansion renders one diagnostic in a.go (suppressed) and one in b.go
(emitted). -/
theorem typeCheckImpl_suppression_witness :
    (({ parseErrors := [0], hasFixedFiles := false,
        typeErrors := [{ msg := "boom", pos := 5, soft := false }],
        diagnostics := [] } : SPkg).hasFixedFiles = false)
    ∧ ((typeCheckImplModel
          (fun _ => some [{ uri := "a.go", msg := "syntax error" }])
          (fun _ => some [{ uri := "a.go", msg := "boom" }, { uri := "b.go", msg := "boom" }])
          true
          { parseErrors := [0], hasFixedFiles := false,
            typeErrors := [{ msg := "boom", pos := 5, soft := false }],
            diagnostics := [] }).diagnostics
        = [{ uri := "a.go", msg := "syntax error" }, { uri := "b.go", msg := "boom" }]) := by
  refine ⟨rfl, ?_⟩
  have h := (typeCheckImpl_suppression
      (fun _ => some [{ uri := "a.go", msg := "syntax error" }])
      (fun _ => some [{ uri := "a.go", msg := "boom" }, { uri := "b.go", msg := "boom" }])
      true
      { parseErrors := [0], hasFixedFiles := false,
        typeErrors := [{ msg := "boom", pos := 5, soft := false }],
        diagnostics := [] }).2 rfl
  exact h.1.trans (by decide)

/-- The slice of package `Metadata` that the volatility computation of
`resolveImportGraph` reads: the `DepsByPkgPath` map, modelled as an
association list from package path to dependency `PackageID` (only the
values are iterated). -/
structure MetaNode where
  depsByPkgPath : List (String × String)
deriving DecidableEq

/-- The memoized recursive `isVolatile` closure of `resolveImportGraph`
(check.go lines 274-295): a package is volatile if it is open or one of
its `DepsByPkgPath` dependencies is volatile; a package without
metadata is not volatile.  The `volatileDeps` memo of the Go code is a
pure optimization and is dropped; the Go recursion (which terminates
because the metadata graph is acyclic) is modelled with a fuel
parameter, `fuel` exceeding the length of every dependency path. -/
def isVolatile (meta : String → Option MetaNode) (openPkgs : String → Bool) :
    Nat → String → Bool
  | 0, _ => false
  | fuel + 1, id =>
    openPkgs id ||
    (match meta id with
     | some m => m.depsByPkgPath.any (fun dep => isVolatile meta openPkgs fuel dep.2)
     | none => false)

/-- The erasure step of `resolveImportGraph` (check.go lines 296-303):
every id whose `isVolatile` is true is deleted from the deps map.  The
map is represented by the list of its keys. -/
def resolveImportGraphDeps (meta : String → Option MetaNode) (openPkgs : String → Bool)
    (fuel : Nat) (deps : List String) : List String :=
  deps.filter (fun id => !(isVolatile meta openPkgs fuel id))

/-- Reachability through `DepsByPkgPath` edges in at most `n` steps. -/
inductive ReachesIn (meta : String → Option MetaNode) : Nat → String → String → Prop
  | refl (n : Nat) (id : String) : ReachesIn meta n id id
  | step {n : Nat} {id q : String} (m : MetaNode) (dep : String × String) :
      meta id = some m → dep ∈ m.depsByPkgPath → ReachesIn meta n dep.2 q →
      ReachesIn meta (n + 1) id q

/-- A package from which an open package is reachable is volatile, for
any fuel exceeding the path length. -/
theorem isVolatile_of_reaches (meta : String → Option MetaNode) (openPkgs : String → Bool)
    {n : Nat} {id q : String} (hreach : ReachesIn meta n id q) :
    openPkgs q = true → ∀ fuel, n < fuel → isVolatile meta openPkgs fuel id = true := by
  induction hreach with
  | refl n id =>
    intro hopen fuel hfuel
    obtain ⟨f, rfl⟩ : ∃ f, fuel = f + 1 :=
      ⟨fuel - 1, (Nat.succ_pred_eq_of_pos (Nat.lt_of_le_of_lt (Nat.zero_le _) hfuel)).symm⟩
    simp [isVolatile, hopen]
  | step m dep hmeta hdep _ ih =>
    intro hopen fuel hfuel
    obtain ⟨f, rfl⟩ : ∃ f, fuel = f + 1 :=
      ⟨fuel - 1, (Nat.succ_pred_eq_of_pos (Nat.lt_of_le_of_lt (Nat.zero_le _) hfuel)).symm⟩
    have hf : _ < f := Nat.lt_of_succ_lt_succ hfuel
    have hdep2 := ih hopen f hf
    simp only [isVolatile, hmeta, Bool.or_eq_true]
    exact Or.inr (List.any_eq_true.mpr ⟨dep, hdep, hdep2⟩)

/-- C6: after the erasure step of `resolveImportGraph`, the deps map
contains no volatile package - every surviving id is not open, and no
package reachable from it through `DepsByPkgPath` edges (within the
fuel bound, which covers every path in the acyclic metadata graph) is
open. -/
theorem resolveImportGraph_no_volatile (meta : String → Option MetaNode)
    (openPkgs : String → Bool) (fuel : Nat) (deps : List String) (id : String)
    (hmem : id ∈ resolveImportGraphDeps meta openPkgs fuel deps)
    (q : String) (n : Nat) (hreach : ReachesIn meta n id q) (hn : n < fuel) :
    openPkgs q = false := by
  have hnotvol : isVolatile meta openPkgs fuel id = false := by
    have := List.of_mem_filter hmem
    simpa using this
  by_contra hq
  have hq2 : openPkgs q = true := by
    cases hqv : openPkgs q with
    | true => rfl
    | false => exact absurd hqv hq
  have := isVolatile_of_reaches meta openPkgs hreach hq2 fuel hn
  rw [this] at hnotvol
  simp at hnotvol

/-- Witness for C6: the open package is "o"; package "b" depends on "c"
which depends on nothing; "b" survives the erasure and the package "c"
reachable from it is indeed not open. -/
theorem resolveImportGraph_no_volatile_witness :
    ("b" ∈ resolveImportGraphDeps
        (fun id => if id == "b" then some { depsByPkgPath := [("example.com/c", "c")] }
                   else if id == "c" then some { depsByPkgPath := [] } else none)
        (fun id => id == "o") 3 ["b"])
    ∧ ((fun (id : String) => id == "o") "c" = false) := by
  refine ⟨by decide, ?_⟩
  exact resolveImportGraph_no_volatile
    (fun id => if id == "b" then some { depsByPkgPath := [("example.com/c", "c")] }
               else if id == "c" then some { depsByPkgPath := [] } else none)
    (fun id => id == "o") 3 ["b"] "b" (by decide) "c" 1
    (ReachesIn.step { depsByPkgPath := [("example.com/c", "c")] } ("example.com/c", "c")
      (by decide) (by decide) (ReachesIn.refl 0 "c"))
    (by decide)

/-- A reference to one `*source.Metadata` instance: its package ID and
an identity token modelling Go pointer identity (two reads of the same
map slot within one snapshot yield the same instance). -/
structure MetaRef where
  pid : String
  inst : Nat
deriving DecidableEq

/-- The `packageHandle` of check.go as far as the store logic reads it:
the captured metadata instance and the computed key. -/
structure PkgHandle where
  m : MetaRef
  key : String
deriving DecidableEq

/-- The snapshot state that `buildPackageHandle` reads and writes under
`s.mu`: the immutable metadata map of the snapshot and the
`s.packages` handle map. -/
structure HandleStore where
  meta : String → Option MetaRef
  packages : List (String × PkgHandle)

/-- The locked install section of `buildPackageHandle` (check.go lines
800-826): re-verify that the metadata is still the exact captured
instance; if another goroutine populated the slot meanwhile return that
handle (erroring if it captured different metadata); otherwise insert
the freshly built handle. -/
def installHandle (s : HandleStore) (id : String) (ph : PkgHandle) :
    Except String PkgHandle × HandleStore :=
  if s.meta ph.m.pid = some ph.m then
    match lookupStr s.packages id with
    | some prevPH =>
      if prevPH.m = ph.m then (.ok prevPH, s)
      else (.error ("existing package handle does not match for " ++ id), s)
    | none => (.ok ph, { s with packages := (id, ph) :: s.packages })
  else (.error ("stale metadata for " ++ id), s)

/-- One full `buildPackageHandle` call (check.go lines 773-826),
linearized at the snapshot lock: the initial lookup and metadata check,
then - on a miss - the locked install of the handle `ph` computed in
between (passed as a parameter, so that races in which another call
installs first are covered for every possible freshly built handle). -/
def buildHandleCall (s : HandleStore) (id : String) (ph : PkgHandle) :
    Except String PkgHandle × HandleStore :=
  match s.meta id with
  | none => (.error ("no metadata for " ++ id), s)
  | some _ =>
    match lookupStr s.packages id with
    | some entry => (.ok entry, s)
    | none => installHandle s id ph

/-- A sequence of `buildPackageHandle` calls against one snapshot,
returning the final store and the per-call results. -/
def runHandleCalls (s : HandleStore) :
    List (String × PkgHandle) → HandleStore × List (String × Except String PkgHandle)
  | [] => (s, [])
  | (id, ph) :: rest =>
    let r := buildHandleCall s id ph
    let next := runHandleCalls r.2 rest
    (next.1, (id, r.1) :: next.2)

deriving instance DecidableEq for Except

/-- An installed handle is never overwritten by a later install. -/
theorem installHandle_mono (s : HandleStore) (id2 : String) (ph : PkgHandle)
    {id : String} {h : PkgHandle} (hl : lookupStr s.packages id = some h) :
    lookupStr (installHandle s id2 ph).2.packages id = some h := by
  unfold installHandle
  by_cases hmeta : s.meta ph.m.pid = some ph.m
  · rw [if_pos hmeta]
    cases hprev : lookupStr s.packages id2 with
    | some prevPH =>
      by_cases heq : prevPH.m = ph.m <;> simp [heq, hl]
    | none =>
      simp only [lookupStr]
      have hne : ¬ (id2 = id) := by
        intro he
        rw [he] at hprev
        rw [hprev] at hl
        exact Option.noConfusion hl
      rw [if_neg hne]
      exact hl
  · rw [if_neg hmeta]
    exact hl

/-- An installed handle survives any later `buildPackageHandle` call. -/
theorem buildHandleCall_mono (s : HandleStore) (id2 : String) (ph : PkgHandle)
    {id : String} {h : PkgHandle} (hl : lookupStr s.packages id = some h) :
    lookupStr (buildHandleCall s id2 ph).2.packages id = some h := by
  unfold buildHandleCall
  cases hm : s.meta id2 with
  | none => exact hl
  | some m0 =>
    cases hprev : lookupStr s.packages id2 with
    | some entry => exact hl
    | none => exact installHandle_mono s id2 ph hl

/-- A successful `buildPackageHandle` call leaves its returned handle
installed in the store under its ID. -/
theorem buildHandleCall_ok (s : HandleStore) (id : String) (ph : PkgHandle)
    {h : PkgHandle} (hok : (buildHandleCall s id ph).1 = .ok h) :
    lookupStr (buildHandleCall s id ph).2.packages id = some h := by
  unfold buildHandleCall at hok ⊢
  cases hm : s.meta id with
  | none =>
    rw [hm] at hok
    have hok2 : Except.error ("no metadata for " ++ id) = Except.ok h := hok
    exact absurd hok2 (by simp)
  | some m0 =>
    rw [hm] at hok
    cases hprev : lookupStr s.packages id with
    | some entry =>
      rw [hprev] at hok
      have hok2 : Except.ok entry = Except.ok h := hok
      injection hok2 with hok3
      show lookupStr s.packages id = some h
      rw [← hok3]
      exact hprev
    | none =>
      rw [hprev] at hok
      have hok2 : (installHandle s id ph).1 = Except.ok h := hok
      show lookupStr (installHandle s id ph).2.packages id = some h
      unfold installHandle at hok2 ⊢
      by_cases hmeta : s.meta ph.m.pid = some ph.m
      · rw [if_pos hmeta] at hok2 ⊢
        rw [hprev] at hok2 ⊢
        have hok3 : Except.ok ph = Except.ok h := hok2
        injection hok3 with hok4
        simp [lookupStr, hok4]
      · rw [if_neg hmeta] at hok2
        have hok3 : Except.error ("stale metadata for " ++ id) = Except.ok h := hok2
        exact absurd hok3 (by simp)

/-- An installed handle survives a whole sequence of calls. -/
theorem runHandleCalls_mono (reqs : List (String × PkgHandle)) (s : HandleStore)
    {id : String} {h : PkgHandle} (hl : lookupStr s.packages id = some h) :
    lookupStr (runHandleCalls s reqs).1.packages id = some h := by
  induction reqs generalizing s with
  | nil => exact hl
  | cons p rest ih =>
    obtain ⟨id2, ph⟩ := p
    simp only [runHandleCalls]
    exact ih _ (buildHandleCall_mono s id2 ph hl)

/-- Every successful result of a call sequence is the handle installed
under its ID in the final store. -/
theorem runHandleCalls_ok_lookup (reqs : List (String × PkgHandle)) (s : HandleStore)
    {id : String} {h : PkgHandle}
    (hmem : (id, Except.ok h) ∈ (runHandleCalls s reqs).2) :
    lookupStr (runHandleCalls s reqs).1.packages id = some h := by
  induction reqs generalizing s with
  | nil => simp [runHandleCalls] at hmem
  | cons p rest ih =>
    obtain ⟨id2, ph⟩ := p
    simp only [runHandleCalls, List.mem_cons] at hmem
    simp only [runHandleCalls]
    rcases hmem with heq | htail
    · have hid : id = id2 := (Prod.ext_iff.mp heq).1
      have hr : (buildHandleCall s id2 ph).1 = Except.ok h := ((Prod.ext_iff.mp heq).2).symm
      subst hid
      exact runHandleCalls_mono rest _ (buildHandleCall_ok s id ph hr)
    · exact ih _ htail

/-- C7: within one snapshot (whose metadata map is fixed), any two
successful `buildPackageHandle` calls for the same `PackageID` in any
sequence of calls - each call carrying the handle it computed, so
concurrent or repeated builds are covered - return the same package
handle: the double-checked insertion never installs two distinct
handles for one ID. -/
theorem buildPackageHandle_unique (reqs : List (String × PkgHandle)) (s : HandleStore)
    (id : String) (h1 h2 : PkgHandle)
    (hm1 : (id, Except.ok h1) ∈ (runHandleCalls s reqs).2)
    (hm2 : (id, Except.ok h2) ∈ (runHandleCalls s reqs).2) :
    h1 = h2 := by
  have e1 := runHandleCalls_ok_lookup reqs s hm1
  have e2 := runHandleCalls_ok_lookup reqs s hm2
  rw [e1] at e2
  exact Option.some.inj e2

/-- Witness for C7: two calls build "a" with distinct freshly computed
handles (keys "k1" and "k2"); the first installs "k1" and the second
call returns the already-installed "k1" handle, so both successful
results are equal. -/
theorem buildPackageHandle_unique_witness :
    (("a", Except.ok (⟨⟨"a", 0⟩, "k1"⟩ : PkgHandle)) ∈
      (runHandleCalls
        { meta := fun id => if id == "a" then some ⟨"a", 0⟩ else none, packages := [] }
        [("a", ⟨⟨"a", 0⟩, "k1"⟩), ("a", ⟨⟨"a", 0⟩, "k2"⟩)]).2)
    ∧ (⟨⟨"a", 0⟩, "k1"⟩ : PkgHandle) = ⟨⟨"a", 0⟩, "k1"⟩ := by
  constructor
  · decide
  · exact buildPackageHandle_unique
      [("a", ⟨⟨"a", 0⟩, "k1"⟩), ("a", ⟨⟨"a", 0⟩, "k2"⟩)]
      { meta := fun id => if id == "a" then some ⟨"a", 0⟩ else none, packages := [] }
      "a" ⟨⟨"a", 0⟩, "k1"⟩ ⟨⟨"a", 0⟩, "k1"⟩ (by decide) (by decide)

/-- The cache-consultation loop of `snapshot.TypeCheck` (check.go lines
134-141): walk the requested ids, record the original index of every
active-package miss.  Packages are modelled as opaque tokens (`Nat`). -/
def collectNeed (cache : String → Option Nat) : Nat → List String → List (Nat × String)
  | _, [] => []
  | i, id :: rest =>
    (if (cache id).isNone then [(i, id)] else []) ++ collectNeed cache (i + 1) rest

/-- The batch run of `forEachPackage` for the misses, linearized in
list order.  Each entry of `need` is one goroutine
`handleSyntaxPackage(i, id)`: the first goroutine for an id installs
the future, builds (via `build`), and on success invokes the `post`
callback, which memoizes through `memoizeActivePackage` (modelled by
`mem`, returning the already-memoized package if it loses that race)
and writes the slot at the original index.  A later goroutine for the
same id finds the installed future, waits on it, and returns WITHOUT
invoking `post` (check.go lines 513-519), so its slot is not written.
The returned error is the first build error, as `errgroup.Wait`
reports it. -/
def runBatchPosts (build : String → Except String Nat) (mem : String → Nat → Option Nat) :
    List (Nat × String) → List String → List (Option Nat) → List (Option Nat) × Option String
  | [], _, slots => (slots, none)
  | (i, id) :: rest, seen, slots =>
    if seen.contains id then
      runBatchPosts build mem rest seen slots
    else
      match build id with
      | .ok pkg =>
        let pkg2 := match mem id pkg with
          | some alt => alt
          | none => pkg
        runBatchPosts build mem rest (id :: seen) (slots.set i (some pkg2))
      | .error e =>
        let r := runBatchPosts build mem rest (id :: seen) slots
        (r.1, some e)

/-- `snapshot.TypeCheck` (check.go lines 117-152): fill the result
slice from the active-package cache, then run a batch over the misses
whose `post` callback fills the remaining slots. -/
def TypeCheck (cache : String → Option Nat) (build : String → Except String Nat)
    (mem : String → Nat → Option Nat) (ids : List String) :
    List (Option Nat) × Option String :=
  runBatchPosts build mem (collectNeed cache 0 ids) [] (ids.map cache)

/-- C8: the claim fails on the code.  `TypeCheck` on the duplicate
request `["A", "A"]` with an empty active-package cache and a build
that succeeds returns a nil error together with a result slice whose
second entry is nil: the second goroutine for "A" finds the future
installed by the first and returns without invoking `post`, so its
slot is never filled.  This contradicts the claim (and the function's
own documentation) that entries are nil only when the returned error
is non-nil.  The slice still has `len(ids)` entries. -/
theorem TypeCheck_duplicate_ids_nil_slot :
    (TypeCheck (fun _ => none) (fun _ => .ok 7) (fun _ _ => none) ["A", "A"]).2 = none
    ∧ (TypeCheck (fun _ => none) (fun _ => .ok 7) (fun _ _ => none) ["A", "A"]).1
        = [some 7, none]
    ∧ (TypeCheck (fun _ => none) (fun _ => .ok 7) (fun _ _ => none) ["A", "A"]).1.length
        = ["A", "A"].length := by
  refine ⟨rfl, rfl, rfl⟩

/-- A `*types.Package` as the orchestration layer distinguishes them:
the canonical compiler-builtin singleton (`types.Unsafe`), or an
ordinary package created by `types.NewPackage(path, name)`. -/
inductive TPkg where
  | sentinel
  | pkg (path : String) (name : String)
deriving DecidableEq

/-- The result of `filecache.Get(exportDataKind, key)`: cached bytes
(opaque token), `ErrNotFound`, or another read error. -/
inductive CacheRes where
  | found (data : Nat)
  | notFound
  | failed (e : String)
deriving DecidableEq

/-- The outcome of `getImportPackage`, instrumented with whether the
call reached `buildPackageHandle` and whether it consulted the
export-data cache (each Go branch below sets the two flags
according to which expressions it evaluates before returning). -/
structure ImportOutcome where
  res : Except String TPkg
  builtHandle : Bool
  consultedCache : Bool
deriving DecidableEq

/-- `typeCheckBatch.getImportPackage` (check.go lines 451-504), after
the future-map deduplication: if `id` is a requested syntax target,
delegate to `handleSyntaxPackage` (its outcome is `synResult`; `ok
none` models the pre-func having short-circuited, which falls
through); then the `id == "unsafe"` branch returns the canonical
singleton; only after that is a package handle built and the
export-data cache consulted. -/
def getImportPackageModel (synResult : Option (Except String (Option TPkg))) (id : String)
    (handleResult : Except String PkgHandle) (cacheGet : String → CacheRes)
    (importFromData : Nat → Except String TPkg) (checkForImport : Except String TPkg) :
    ImportOutcome :=
  let rest : ImportOutcome :=
    if id = "unsafe" then { res := .ok .sentinel, builtHandle := false, consultedCache := false }
    else
      match handleResult with
      | .error e => { res := .error e, builtHandle := true, consultedCache := false }
      | .ok ph =>
        match cacheGet ph.key with
        | .notFound => { res := checkForImport, builtHandle := true, consultedCache := true }
        | .failed e =>
          { res := .error ("failed to read cache data for " ++ id ++ ": " ++ e),
            builtHandle := true, consultedCache := true }
        | .found data =>
          { res := importFromData data, builtHandle := true, consultedCache := true }
  match synResult with
  | some (.error e) => { res := .error e, builtHandle := false, consultedCache := false }
  | some (.ok (some p)) => { res := .ok p, builtHandle := false, consultedCache := false }
  | some (.ok none) => rest
  | none => rest

/-- A parsed compiled file as `doTypeCheck` reads it: its URI and
whether parsing reported an error. -/
structure PFile where
  uri : String
  parseErr : Option String
deriving DecidableEq

/-- The fields of the `syntaxPackage` produced by `doTypeCheck` that
the sentinel claim is about, instrumented with whether the external
checker was run. -/
structure SyntaxPkg where
  types : TPkg
  parseErrors : List String
  typeErrors : List TError
  ranChecker : Bool
deriving DecidableEq

/-- `doTypeCheck` (check.go lines 1061-1154), at the granularity the
sentinel claim needs: parse the compiled files collecting parse
errors; if `PkgPath == "unsafe"` substitute the canonical package and
return without running the checker (so no type errors); fail if there
are no compiled files; otherwise run the checker, whose emitted errors
(`checkerErrors`, a parameter: the checker is external) become the
package's type errors. -/
def doTypeCheckModel (pkgPath name : String) (compiled : List PFile)
    (checkerErrors : List TError) : Except String SyntaxPkg :=
  let parseErrs := compiled.filterMap (fun f => f.parseErr)
  if pkgPath = "unsafe" then
    .ok { types := .sentinel, parseErrors := parseErrs, typeErrors := [], ranChecker := false }
  else if compiled.length = 0 then
    .error ("no parsed files for package " ++ pkgPath)
  else
    .ok { types := .pkg pkgPath name, parseErrors := parseErrs,
          typeErrors := checkerErrors, ranChecker := true }

/-- C9: the compiler-builtin sentinel.  `getImportPackage` with id
"unsafe" (not a syntax target, or one whose pre-func short-circuited)
returns the canonical singleton without building a handle and without
consulting the export-data cache; and a full `doTypeCheck` of a
package whose `PkgPath` is "unsafe" substitutes the canonical package
without running the type checker, yielding no type errors. -/
theorem sentinel_package_spec (synResult : Option (Except String (Option TPkg)))
    (handleResult : Except String PkgHandle) (cacheGet : String → CacheRes)
    (importFromData : Nat → Except String TPkg) (checkForImport : Except String TPkg)
    (hsyn : synResult = none ∨ synResult = some (.ok none))
    (name : String) (compiled : List PFile) (checkerErrors : List TError) :
    getImportPackageModel synResult "unsafe" handleResult cacheGet importFromData checkForImport
      = { res := .ok .sentinel, builtHandle := false, consultedCache := false }
    ∧ doTypeCheckModel "unsafe" name compiled checkerErrors
      = .ok { types := .sentinel,
              parseErrors := compiled.filterMap (fun f => f.parseErr),
              typeErrors := [], ranChecker := false } := by
  constructor
  · rcases hsyn with rfl | rfl <;> simp [getImportPackageModel]
  · simp [doTypeCheckModel]

/-- Witness for C9 at concrete inputs: "unsafe" imported outside the
syntax set, with a cache that would answer and a checker that would
emit an error if they were consulted. -/
theorem sentinel_package_spec_witness :
    ((none : Option (Except String (Option TPkg))) = none
      ∨ (none : Option (Except String (Option TPkg))) = some (.ok none))
    ∧ getImportPackageModel none "unsafe" (.ok ⟨⟨"unsafe", 0⟩, "k"⟩)
        (fun _ => .found 3) (fun _ => .ok (.pkg "x" "x")) (.ok (.pkg "y" "y"))
      = { res := .ok .sentinel, builtHandle := false, consultedCache := false }
    ∧ doTypeCheckModel "unsafe" "unsafe"
        [{ uri := "unsafe.go", parseErr := none }]
        [{ msg := "would-be error", pos := 0, soft := false }]
      = .ok { types := .sentinel, parseErrors := [], typeErrors := [], ranChecker := false } := by
  have h := sentinel_package_spec none (.ok ⟨⟨"unsafe", 0⟩, "k"⟩)
    (fun _ => .found 3) (fun _ => .ok (.pkg "x" "x")) (.ok (.pkg "y" "y"))
    (Or.inl rfl) "unsafe" [{ uri := "unsafe.go", parseErr := none }]
    [{ msg := "would-be error", pos := 0, soft := false }]
  exact ⟨Or.inl rfl, h.1, h.2.trans (by decide)⟩

/-- A `*source.ParsedGoFile` as `pkg.File` reads it: its URI plus an
opaque token standing for the parsed syntax tree. -/
structure ParsedGoFile where
  uri : String
  ast : Nat
deriving DecidableEq

/-- The two file lists of the `pkg` struct (pkg.go) that the `File`
accessor searches. -/
structure PkgFiles where
  compiledGoFiles : List ParsedGoFile
  goFiles : List ParsedGoFile
deriving DecidableEq

/-- `pkg.File` (pkg.go lines 73-85): scan `compiledGoFiles` and then
`goFiles`, returning the first file whose URI matches, and an error
when neither list contains the URI.  The early-return loops are the
first-match searches `List.find?`. -/
def File (p : PkgFiles) (uri : String) : Except String ParsedGoFile :=
  match p.compiledGoFiles.find? (fun cgf => cgf.uri == uri) with
  | some cgf => .ok cgf
  | none =>
    match p.goFiles.find? (fun gf => gf.uri == uri) with
    | some gf => .ok gf
    | none => .error ("no parsed file for " ++ uri ++ " in package")

/-- C10: the `File` accessor searches the compiled files first and the
extra (non-compiled) files second, returning the first parsed file
whose URI matches - a URI present in both lists yields the compiled
file (conjunct 1); a URI present only among the extra files yields
that file (conjunct 2); and it returns an error - never a nil file
with a nil error, since the result is either `ok` with a file or
`error` - exactly when the URI occurs in neither list (conjunct 3). -/
theorem File_spec (p : PkgFiles) (uri : String) :
    (uri ∈ p.compiledGoFiles.map ParsedGoFile.uri →
      ∃ f, p.compiledGoFiles.find? (fun cgf => cgf.uri == uri) = some f
        ∧ File p uri = .ok f ∧ f ∈ p.compiledGoFiles ∧ f.uri = uri)
    ∧ (uri ∉ p.compiledGoFiles.map ParsedGoFile.uri →
        uri ∈ p.goFiles.map ParsedGoFile.uri →
      ∃ f, p.goFiles.find? (fun gf => gf.uri == uri) = some f
        ∧ File p uri = .ok f ∧ f ∈ p.goFiles ∧ f.uri = uri)
    ∧ ((∃ e, File p uri = .error e)
        ↔ uri ∉ p.compiledGoFiles.map ParsedGoFile.uri
          ∧ uri ∉ p.goFiles.map ParsedGoFile.uri) := by
  refine ⟨?_, ?_, ?_⟩
  · intro hmem
    have hex : ∃ x, x ∈ p.compiledGoFiles ∧ (fun cgf => cgf.uri == uri) x := by
      rcases List.mem_map.mp hmem with ⟨f, hf, rfl⟩
      exact ⟨f, hf, by simp⟩
    obtain ⟨f, hf⟩ := Option.isSome_iff_exists.mp (List.find?_isSome.mpr hex)
    refine ⟨f, hf, ?_, List.mem_of_find?_eq_some hf, by simpa using List.find?_some hf⟩
    simp [File, hf]
  · intro hm1 hmem
    have h1 : p.compiledGoFiles.find? (fun cgf => cgf.uri == uri) = none :=
      List.find?_eq_none.mpr (fun f hf hp =>
        hm1 (List.mem_map.mpr ⟨f, hf, by simpa using hp⟩))
    have hex : ∃ x, x ∈ p.goFiles ∧ (fun gf => gf.uri == uri) x := by
      rcases List.mem_map.mp hmem with ⟨f, hf, rfl⟩
      exact ⟨f, hf, by simp⟩
    obtain ⟨f, hf⟩ := Option.isSome_iff_exists.mp (List.find?_isSome.mpr hex)
    refine ⟨f, hf, ?_, List.mem_of_find?_eq_some hf, by simpa using List.find?_some hf⟩
    simp [File, h1, hf]
  · constructor
    · rintro ⟨e, he⟩
      unfold File at he
      cases h1 : p.compiledGoFiles.find? (fun cgf => cgf.uri == uri) with
      | some f =>
        rw [h1] at he
        exact absurd he (by simp)
      | none =>
        rw [h1] at he
        cases h2 : p.goFiles.find? (fun gf => gf.uri == uri) with
        | some f =>
          rw [h2] at he
          exact absurd he (by simp)
        | none =>
          have hn1 := List.find?_eq_none.mp h1
          have hn2 := List.find?_eq_none.mp h2
          constructor
          · intro hmem
            rcases List.mem_map.mp hmem with ⟨f, hf, rfl⟩
            exact hn1 f hf (by simp)
          · intro hmem
            rcases List.mem_map.mp hmem with ⟨f, hf, rfl⟩
            exact hn2 f hf (by simp)
    · rintro ⟨hm1, hm2⟩
      have h1 : p.compiledGoFiles.find? (fun cgf => cgf.uri == uri) = none :=
        List.find?_eq_none.mpr (fun f hf hp =>
          hm1 (List.mem_map.mpr ⟨f, hf, by simpa using hp⟩))
      have h2 : p.goFiles.find? (fun gf => gf.uri == uri) = none :=
        List.find?_eq_none.mpr (fun f hf hp =>
          hm2 (List.mem_map.mpr ⟨f, hf, by simpa using hp⟩))
      exact ⟨"no parsed file for " ++ uri ++ " in package", by simp [File, h1, h2]⟩

/-- Witness for C10: the URI "a.go" present in both lists yields the
compiled entry (ast 1), and a URI in neither list yields an error. -/
theorem File_spec_witness :
    ("a.go" ∈ (PkgFiles.mk [⟨"a.go", 1⟩] [⟨"a.go", 2⟩, ⟨"b.go", 3⟩]).compiledGoFiles.map
        ParsedGoFile.uri)
    ∧ (∃ f, (PkgFiles.mk [⟨"a.go", 1⟩] [⟨"a.go", 2⟩, ⟨"b.go", 3⟩]).compiledGoFiles.find?
          (fun cgf => cgf.uri == "a.go") = some f
        ∧ File (PkgFiles.mk [⟨"a.go", 1⟩] [⟨"a.go", 2⟩, ⟨"b.go", 3⟩]) "a.go" = .ok f
        ∧ f ∈ (PkgFiles.mk [⟨"a.go", 1⟩] [⟨"a.go", 2⟩, ⟨"b.go", 3⟩]).compiledGoFiles
        ∧ f.uri = "a.go") := by
  refine ⟨by decide, ?_⟩
  exact (File_spec (PkgFiles.mk [⟨"a.go", 1⟩] [⟨"a.go", 2⟩, ⟨"b.go", 3⟩]) "a.go").1 (by decide)
